import Mathlib

/-!
# image-convert: the batch conversion pipeline of `src/script.js`

A shallow embedding of the `ImageConverter` class: the item registry
(`addFiles`, `clearFiles`), the batch orchestrator (`convertImages`), the
statistics shown by `showStatistics`, the byte formatter `formatBytes` and the
output naming `getConvertedFileName`.

Conventions of the embedding.

* Byte counts are natural numbers. JavaScript numbers are doubles; every
  integer below `2^53` is represented exactly, and the sums taken here are
  assumed to stay below that bound.
* A JavaScript object reference held in `this.convertedFiles` always points to
  an object that also sits in `this.files` (both arrays only grow by `push`
  and are reset together by `clearFiles`). Such a reference is modelled by the
  position of the object in `this.files`, so that an update of the object is
  seen through every reference to it, as in JavaScript.
* The outcome of `convertSingleImage` depends on the host's image codec; it is
  a parameter of the model (one `Outcome` per loop iteration).
* A run of `convertImages` is observed where it awaits (the promise of the
  conversion, the timer at the end of an iteration); the assignments between
  two such points form one step. No other method runs inside a run.
* Strings are sequences of characters. JavaScript counts UTF-16 units in
  `lastIndexOf` and `substring`; cutting a name at its last point gives the
  same string either way, a point being a single unit that is part of no
  surrogate pair.
* DOM updates, timers and the clock (`startTime`, `endTime`) are left out.
-/

namespace ImageConvert

/-! ## Data model -/

/-- The browser `File` objects handed to `addFiles`: the fields the code reads
(`name`, `size`) and the MIME type, which tells apart files of equal name and
size. -/
structure File where
  name : String
  size : Nat
  type : String
  deriving DecidableEq

/-- The `Blob` produced by `canvas.toBlob`; only its `size` is read. -/
structure Blob where
  size : Nat
  deriving DecidableEq

/-- The four string values assigned to `fileData.status`. -/
inductive Status where
  | pending
  | processing
  | completed
  | error
  deriving DecidableEq

/-- The object literal pushed by `addFiles` (script.js 106-113). -/
structure FileData where
  file : File
  name : String
  size : Nat
  status : Status
  convertedBlob : Option Blob
  convertedSize : Nat
  deriving DecidableEq

/-- The numeric fields of `this.statistics` (script.js 7-13). -/
structure Statistics where
  totalFiles : Nat
  originalSize : Nat
  compressedSize : Nat
  deriving DecidableEq

/-- The fields of an `ImageConverter` instance (script.js 2-14).
`convertedFiles` holds references into `files` (positions). -/
structure ImageConverter where
  files : List FileData
  convertedFiles : List Nat
  outputFormat : String
  statistics : Statistics
  deriving DecidableEq

/-- The state built by the constructor (script.js 2-14). -/
def initial : ImageConverter :=
  { files := []
    convertedFiles := []
    outputFormat := "jpeg"
    statistics := { totalFiles := 0, originalSize := 0, compressedSize := 0 } }

/-! ## Item registry -/

/-- The object literal of script.js 106-113. -/
def newFileData (file : File) : FileData :=
  { file := file
    name := file.name
    size := file.size
    status := Status.pending
    convertedBlob := none
    convertedSize := 0 }

/-- One turn of the `forEach` in `addFiles` (script.js 102-115): the file is
pushed unless `this.files.find(...)` returns an item of the same name and
size. -/
def addFile (files : List FileData) (file : File) : List FileData :=
  if (files.find? (fun f => f.name == file.name && f.size == file.size)).isSome then files
  else files ++ [newFileData file]

/-- The method `addFiles(files)` (script.js 101-119), without its DOM updates. -/
def addFiles (s : ImageConverter) (files : List File) : ImageConverter :=
  { s with files := files.foldl addFile s.files }

/-- The method `clearFiles()` (script.js 344-353), without its DOM updates. -/
def clearFiles (s : ImageConverter) : ImageConverter :=
  { s with files := [], convertedFiles := [] }

/-- No two items of a registry share the pair (name, size). -/
def KeysUnique (files : List FileData) : Prop :=
  files.Pairwise (fun a b => ¬ (a.name = b.name ∧ a.size = b.size))

instance (files : List FileData) : Decidable (KeysUnique files) := by
  unfold KeysUnique; infer_instance

/-! ## Batch orchestrator -/

/-- How the promise of `convertSingleImage` settles (script.js 223-240):
`canvas.toBlob` calls `resolve` with a blob, or with `null` when the canvas
cannot be encoded; `img.onerror` rejects. -/
inductive Outcome where
  | resolved (blob : Option Blob)
  | rejected
  deriving DecidableEq

/-- The conversion produced a blob. -/
def Outcome.succeeded : Outcome → Bool
  | Outcome.resolved (some _) => true
  | _ => false

/-- In-place update of the object at position `i` of `this.files`. -/
def updateAt (files : List FileData) (i : Nat) (f : FileData → FileData) : List FileData :=
  match files[i]? with
  | some fd => files.set i (f fd)
  | none => files

/-- Lines 189-190 of script.js: `fileData.status = "processing"`. -/
def beginItem (s : ImageConverter) (i : Nat) : ImageConverter :=
  { s with files := updateAt s.files i (fun fd => { fd with status := Status.processing }) }

/-- The `try`/`catch` of script.js 193-202 once the promise has settled.
With a blob: the three assignments and the push. With `null`:
`fileData.convertedBlob = null`, then `convertedBlob.size` throws and the
`catch` sets the status. On rejection only the `catch` runs. -/
def settleItem (s : ImageConverter) (i : Nat) : Outcome → ImageConverter
  | Outcome.resolved (some blob) =>
    { s with
      files := updateAt s.files i (fun fd =>
        { fd with convertedBlob := some blob, convertedSize := blob.size,
                  status := Status.completed })
      convertedFiles := s.convertedFiles ++ [i] }
  | Outcome.resolved none =>
    { s with
      files := updateAt s.files i (fun fd =>
        { fd with convertedBlob := none, status := Status.error }) }
  | Outcome.rejected =>
    { s with files := updateAt s.files i (fun fd => { fd with status := Status.error }) }

/-- One iteration of the loop of script.js 188-210. The second component
records the argument of each call of `convertSingleImage`, in call order. -/
def convertItem (outcomes : Nat → Outcome) (acc : ImageConverter × List File) (i : Nat) :
    ImageConverter × List File :=
  let s1 := beginItem acc.1 i
  let calls := match s1.files[i]? with
    | some fd => acc.2 ++ [fd.file]
    | none => acc.2
  (settleItem s1 i (outcomes i), calls)

/-- The first `k` iterations of `for (let i = 0; i < this.files.length; i++)`.
The body never changes the length of `this.files`, so the bound is read once. -/
def runUpTo (s : ImageConverter) (outcomes : Nat → Outcome) (k : Nat) :
    ImageConverter × List File :=
  (List.range k).foldl (convertItem outcomes) (s, [])

/-- Lines 175-180 of script.js: `totalFiles` and `originalSize` are recomputed
from `this.files` at the start of every run. -/
def startRun (s : ImageConverter) : ImageConverter :=
  { s with statistics :=
      { s.statistics with
        totalFiles := s.files.length
        originalSize := s.files.foldl (fun sum file => sum + file.size) 0 } }

/-- The `convertedSize` read through a reference of `convertedFiles`. -/
def convertedSizeAt (files : List FileData) (r : Nat) : Nat :=
  match files[r]? with
  | some fd => fd.convertedSize
  | none => 0

/-- Lines 212-216 of script.js: `compressedSize` is the `reduce` over
`this.convertedFiles`. -/
def finishRun (s : ImageConverter) : ImageConverter :=
  { s with statistics :=
      { s.statistics with
        compressedSize :=
          s.convertedFiles.foldl (fun sum r => sum + convertedSizeAt s.files r) 0 } }

/-- The method `convertImages()` (script.js 174-221) run to completion, with the
outcome of the conversion of item `i` given by `outcomes i`. -/
def convertImages (s : ImageConverter) (outcomes : Nat → Outcome) : ImageConverter :=
  finishRun (runUpTo (startRun s) outcomes s.files.length).1

/-- The calls of `convertSingleImage` made by one run, in order. -/
def convertCalls (s : ImageConverter) (outcomes : Nat → Outcome) : List File :=
  (runUpTo (startRun s) outcomes s.files.length).2

/-- The state seen while item `k` of a run is being converted: `k` iterations
are done and `fileData.status = "processing"` has run for item `k`. -/
def duringItem (s : ImageConverter) (outcomes : Nat → Outcome) (k : Nat) : ImageConverter :=
  beginItem (runUpTo (startRun s) outcomes k).1 k

/-! ## Statistics shown by `showStatistics` -/

/-- The values a JavaScript number takes in `showStatistics`: `NaN`, the two
infinities, or a finite value. A finite value is kept as the exact quotient;
rounding to the nearest double changes neither its sign nor whether it is zero
for the integer operands below `2^53` used here. -/
inductive JSNumber where
  | nan
  | posInf
  | negInf
  | finite (q : ℚ)
  deriving DecidableEq

/-- The operator `/` on finite operands, the divisor being non-negative:
`0 / 0` is `NaN` and `x / 0` is an infinity of the sign of `x`. -/
def jsDivide (x y : ℚ) : JSNumber :=
  if y = 0 then
    if x = 0 then JSNumber.nan
    else if 0 < x then JSNumber.posInf
    else JSNumber.negInf
  else JSNumber.finite (x / y)

/-- The operator `*` by a positive finite constant. -/
def jsTimes (x : JSNumber) (c : ℚ) : JSNumber :=
  match x with
  | JSNumber.finite q => JSNumber.finite (q * c)
  | other => other

/-- The constant `totalReduction` of `showStatistics` (script.js 245-246):
`((stats.originalSize - stats.compressedSize) / stats.originalSize) * 100`. -/
def totalReduction (stats : Statistics) : JSNumber :=
  jsTimes (jsDivide ((stats.originalSize : ℚ) - (stats.compressedSize : ℚ))
    (stats.originalSize : ℚ)) 100

/-- The constant `averageReduction` of `showStatistics` (script.js 247):
`totalReduction / Math.max(stats.totalFiles, 1)`; the divisor is at least 1. -/
def averageReduction (stats : Statistics) : JSNumber :=
  match totalReduction stats with
  | JSNumber.finite q => JSNumber.finite (q / (max stats.totalFiles 1 : ℕ))
  | other => other

/-! ## Byte formatter -/

/-- Auxiliary recursion of `floorLog`, on a step budget. -/
def floorLogAux (k : Nat) : Nat → Nat → Nat
  | 0, _ => 0
  | fuel + 1, n => if k ≤ n then floorLogAux k fuel (n / k) + 1 else 0

/-- The index `Math.floor(Math.log(bytes) / Math.log(k))` of script.js 170,
taken as the exact integer logarithm: the number of times `bytes` can be
divided by `k` before it drops below `k`. The code floors a quotient of
doubles. For `k = 1024` and `0 < bytes < 1024^4` the two agree: at a power of
1024 the quotient is the exact integer, and elsewhere it is further from an
integer than the rounding error. They agree as well at `1024^4` (quotient 4)
and at `2^41` (quotient 4.1). They differ at `2^50 - 3`, `2^50 - 2` and
`2^50 - 1`, where the double quotient is 5 and the exact logarithm is 4; the
general statements about `formatBytes` below are therefore restricted to
`bytes < 1024^4`. -/
def floorLog (k n : Nat) : Nat :=
  floorLogAux k n n

/-- The array `sizes` of script.js 169. -/
def sizes : List String :=
  ["Bytes", "KB", "MB", "GB"]

/-- The string JavaScript concatenates for `sizes[i]`: the entry, or
"undefined" when `i` is outside the array. -/
def sizesAt (i : Nat) : String :=
  match sizes[i]? with
  | some unit => unit
  | none => "undefined"

/-- The integer `n` of `Number.prototype.toFixed(2)` for the value `num / den`:
the integer for which `n / 100` is closest to the value, the larger one on a
tie. The quotient `bytes / 1024^i` is exact in double arithmetic. -/
def roundHundredths (num den : Nat) : Nat :=
  (200 * num + den) / (2 * den)

/-- Left padding with the character 0 up to a given length. -/
def padZeros (len : Nat) (cs : List Char) : List Char :=
  List.replicate (len - cs.length) '0' ++ cs

/-- The string of `(num / den).toFixed(2)`: the decimal digits of `n`, padded
to three digits at least, with a point before the last two. -/
def toFixed2 (num den : Nat) : String :=
  let m := padZeros 3 (Nat.repr (roundHundredths num den)).data
  String.mk (m.take (m.length - 2) ++ '.' :: m.drop (m.length - 2))

/-- A finite non-negative decimal, `mant / 10^exp`. -/
structure Decimal where
  mant : Nat
  exp : Nat
  deriving DecidableEq

/-- The value of a list of decimal digit characters. -/
def digitsValue (cs : List Char) : Nat :=
  cs.foldl (fun acc c => 10 * acc + (c.toNat - '0'.toNat)) 0

/-- The function `parseFloat` on unsigned literals without exponent: the
longest leading run of digits, optionally a point and further digits; `none`
stands for `NaN` (no digit found). -/
def parseFloat (s : String) : Option Decimal :=
  let intDigits := s.data.takeWhile Char.isDigit
  match s.data.dropWhile Char.isDigit with
  | '.' :: more =>
    let fracDigits := more.takeWhile Char.isDigit
    if intDigits.isEmpty && fracDigits.isEmpty then none
    else some { mant := digitsValue (intDigits ++ fracDigits), exp := fracDigits.length }
  | _ => if intDigits.isEmpty then none else some { mant := digitsValue intDigits, exp := 0 }

/-- Removal of the trailing zeros of the fraction digits. -/
def stripZeros : Nat → Nat → Decimal
  | mant, 0 => { mant := mant, exp := 0 }
  | mant, e + 1 =>
    if mant % 10 = 0 then stripZeros (mant / 10) e else { mant := mant, exp := e + 1 }

/-- The string of a number in `number + " "`: for a value with at most 15
significant digits the shortest decimal that reads back as the same double is
the decimal itself without trailing zeros. -/
def numberToString (d : Decimal) : String :=
  let c := stripZeros d.mant d.exp
  if c.exp = 0 then Nat.repr c.mant
  else Nat.repr (c.mant / 10 ^ c.exp) ++ "." ++
    String.mk (padZeros c.exp (Nat.repr (c.mant % 10 ^ c.exp)).data)

/-- The method `formatBytes(bytes)` (script.js 166-172). -/
def formatBytes (bytes : Nat) : String :=
  if bytes = 0 then "0 Bytes"
  else
    let i := floorLog 1024 bytes
    let shown := match parseFloat (toFixed2 bytes (1024 ^ i)) with
      | some d => numberToString d
      | none => "NaN"
    shown ++ " " ++ sizesAt i

/-! ## Output names -/

/-- Scan for `lastIndexOf`: the position of the last occurrence seen so far. -/
def lastIndexFrom (c : Char) : List Char → Nat → Int → Int
  | [], _, last => last
  | x :: xs, i, last => lastIndexFrom c xs (i + 1) (if x = c then (i : Int) else last)

/-- The method `String.prototype.lastIndexOf` for a one-character search
string: the position of its last occurrence, or -1. -/
def lastIndexOf (cs : List Char) (c : Char) : Int :=
  lastIndexFrom c cs 0 (-1)

/-- The method `String.prototype.substring(start, end)`: both arguments are
clamped to the range from 0 to the length, and swapped when out of order. -/
def substring (cs : List Char) (start stop : Int) : List Char :=
  let a := min (max start 0).toNat cs.length
  let b := min (max stop 0).toNat cs.length
  (cs.drop (min a b)).take (max a b - min a b)

/-- The method `getConvertedFileName(originalName)` (script.js 307-314). -/
def getConvertedFileName (s : ImageConverter) (originalName : String) : String :=
  let nameWithoutExt := String.mk (substring originalName.data 0 (lastIndexOf originalName.data '.'))
  let extension := if s.outputFormat = "jpeg" then "jpg" else s.outputFormat
  nameWithoutExt ++ "_converted." ++ extension

/-! ## Reference notions used in the statements -/

/-- The record an item ends an iteration with, given how its conversion
settled: the combined effect of lines 190 and 193-202 of script.js on one
object. -/
def settled (fd : FileData) : Outcome → FileData
  | Outcome.resolved (some blob) =>
    { fd with convertedBlob := some blob, convertedSize := blob.size,
              status := Status.completed }
  | Outcome.resolved none => { fd with convertedBlob := none, status := Status.error }
  | Outcome.rejected => { fd with status := Status.error }

/-- The sum of `convertedSize` over the items whose status is "completed". -/
def completedSizeSum (files : List FileData) : Nat :=
  ((files.filter (fun fd => fd.status = Status.completed)).map (fun fd => fd.convertedSize)).sum

/-- The number of items whose status is "error". -/
def errorCount (files : List FileData) : Nat :=
  (files.filter (fun fd => fd.status = Status.error)).length

/-- The invariant of the data model: `convertedBlob` is set exactly when the
status is "completed". -/
def BlobIffCompleted (fd : FileData) : Prop :=
  fd.convertedBlob ≠ none ↔ fd.status = Status.completed

instance (fd : FileData) : Decidable (BlobIffCompleted fd) := by
  unfold BlobIffCompleted; infer_instance

/-- The states between operations: reached from the constructor's state by
`addFiles`, complete runs of `convertImages` and `clearFiles`. -/
inductive Reachable : ImageConverter → Prop where
  | init : Reachable initial
  | addFiles {s : ImageConverter} (files : List File) :
      Reachable s → Reachable (addFiles s files)
  | convertImages {s : ImageConverter} (outcomes : Nat → Outcome) :
      Reachable s → Reachable (convertImages s outcomes)
  | clearFiles {s : ImageConverter} : Reachable s → Reachable (clearFiles s)

/-- The states that can be seen, including those inside a run of
`convertImages`: after any number of completed iterations, and while an item
is being converted. -/
inductive Observable : ImageConverter → Prop where
  | idle {s : ImageConverter} : Reachable s → Observable s
  | between {s : ImageConverter} (outcomes : Nat → Outcome) (k : Nat) :
      Reachable s → k ≤ s.files.length → Observable (runUpTo (startRun s) outcomes k).1
  | converting {s : ImageConverter} (outcomes : Nat → Outcome) (k : Nat) :
      Reachable s → k < s.files.length → Observable (duringItem s outcomes k)

/-- The size of the blob a conversion produced (0 when it produced none). -/
def blobSize : Outcome → Nat
  | Outcome.resolved (some blob) => blob.size
  | _ => 0

/-- The registry built from the constructor's state by successive calls of
`addFiles`. -/
def registryOf (batches : List (List File)) : ImageConverter :=
  batches.foldl addFiles initial

/-- Every item is as `addFiles` builds it: status "pending", no blob. -/
def AllPending (s : ImageConverter) : Prop :=
  ∀ fd ∈ s.files, fd.status = Status.pending ∧ fd.convertedBlob = none

/-- The rendering of `n / 100` with at most two decimals and no trailing zero:
the integer part alone when the fraction is zero, one decimal when the
hundredths digit is zero, two decimals otherwise. -/
def trimmedDecimal (n : Nat) : String :=
  let whole := Nat.repr (n / 100)
  if n % 100 = 0 then whole
  else if n % 10 = 0 then whole ++ "." ++ String.mk [Nat.digitChar (n / 10 % 10)]
  else whole ++ "." ++ String.mk [Nat.digitChar (n / 10 % 10), Nat.digitChar (n % 10)]

/-! ## Example data -/

/-- A registry of two items with distinct names and equal sizes. -/
def sampleRegistry : ImageConverter :=
  { initial with files := [newFileData ⟨"a.png", 100, "image/png"⟩,
                           newFileData ⟨"b.png", 100, "image/png"⟩] }

/-- An input list with a file already admitted (under another type), a file
given twice, and a file that differs from an admitted one in size only. -/
def sampleInput : List File :=
  [⟨"a.png", 100, "image/jpeg"⟩, ⟨"c.png", 7, "image/png"⟩, ⟨"c.png", 7, "image/png"⟩,
   ⟨"a.png", 101, "image/png"⟩]

/-- Three files of 100, 200 and 300 bytes. -/
def threeFiles : List File :=
  [⟨"one.png", 100, "image/png"⟩, ⟨"two.png", 200, "image/png"⟩,
   ⟨"three.png", 300, "image/png"⟩]

/-- Conversions that all succeed with a blob of 40 bytes, but for item `j`,
whose image cannot be decoded. -/
def oneFails (j : Nat) : Nat → Outcome :=
  fun i => if i = j then Outcome.rejected else Outcome.resolved (some ⟨40⟩)

/-- The record of the second of `threeFiles` after a failed conversion. -/
def twoFailed : FileData :=
  settled (newFileData ⟨"two.png", 200, "image/png"⟩) Outcome.rejected

/-- Two files, for the example of a repeated run. -/
def twoBatches : List (List File) :=
  [[⟨"a.png", 100, "image/png"⟩], [⟨"b.png", 250, "image/png"⟩, ⟨"a.png", 100, "image/png"⟩]]

/-- One file of 100 bytes. -/
def oneFile : List File :=
  [⟨"a.png", 100, "image/png"⟩]

/-- Every conversion succeeds with a blob of 40 bytes. -/
def allSucceed : Nat → Outcome :=
  fun _ => Outcome.resolved (some ⟨40⟩)

/-- Every conversion is rejected. -/
def allFail : Nat → Outcome :=
  fun _ => Outcome.rejected

/-- An empty file, which no codec decodes. -/
def emptyFile : List File :=
  [⟨"empty.png", 0, "image/png"⟩]

/-! ## Theorems -/

theorem getElem?_updateAt (files : List FileData) (i j : Nat) (f : FileData → FileData) :
    (updateAt files i f)[j]? = if j = i then files[i]?.map f else files[j]? := by
  unfold updateAt
  cases h : files[i]? with
  | none =>
    by_cases hj : j = i
    · subst hj; simp [h]
    · simp [hj]
  | some fd =>
    have hi : i < files.length := by
      by_contra hc
      rw [List.getElem?_eq_none (by omega)] at h
      cases h
    by_cases hj : j = i
    · subst hj; simp [List.getElem?_set, hi]
    · have : i ≠ j := fun e => hj e.symm
      simp [List.getElem?_set, this, hj]

theorem length_updateAt (files : List FileData) (i : Nat) (f : FileData → FileData) :
    (updateAt files i f).length = files.length := by
  unfold updateAt
  cases files[i]? <;> simp

theorem convertItem_files (outcomes : Nat → Outcome) (acc : ImageConverter × List File)
    (k j : Nat) :
    (convertItem outcomes acc k).1.files[j]? =
      if j = k then acc.1.files[k]?.map (fun fd => settled fd (outcomes k))
      else acc.1.files[j]? := by
  unfold convertItem
  cases h : outcomes k with
  | rejected =>
    simp only [settleItem, beginItem, getElem?_updateAt]
    by_cases hj : j = k
    · simp [hj]; cases acc.1.files[k]? <;> simp [settled]
    · simp [hj]
  | resolved b =>
    cases b with
    | none =>
      simp only [settleItem, beginItem, getElem?_updateAt]
      by_cases hj : j = k
      · simp [hj]; cases acc.1.files[k]? <;> simp [settled]
      · simp [hj]
    | some blob =>
      simp only [settleItem, beginItem, getElem?_updateAt]
      by_cases hj : j = k
      · simp [hj]; cases acc.1.files[k]? <;> simp [settled]
      · simp [hj]

theorem runUpTo_succ (s : ImageConverter) (outcomes : Nat → Outcome) (k : Nat) :
    runUpTo s outcomes (k + 1) = convertItem outcomes (runUpTo s outcomes k) k := by
  simp [runUpTo, List.range_succ, List.foldl_append]

theorem runUpTo_files (s : ImageConverter) (outcomes : Nat → Outcome) (k j : Nat) :
    (runUpTo s outcomes k).1.files[j]? =
      if j < k then s.files[j]?.map (fun fd => settled fd (outcomes j)) else s.files[j]? := by
  induction k with
  | zero => simp [runUpTo]
  | succ k ih =>
    rw [runUpTo_succ, convertItem_files]
    by_cases hj : j = k
    · subst hj
      have := ih
      simp at this
      simp [this]
    · rw [if_neg hj, ih]
      by_cases hlt : j < k
      · simp [hlt, Nat.lt_succ_of_lt hlt]
      · have : ¬ j < k + 1 := by omega
        simp [hlt, this]

theorem runUpTo_length (s : ImageConverter) (outcomes : Nat → Outcome) (k : Nat) :
    (runUpTo s outcomes k).1.files.length = s.files.length := by
  induction k with
  | zero => simp [runUpTo]
  | succ k ih =>
    rw [runUpTo_succ, ← ih]
    unfold convertItem
    cases h : outcomes k with
    | rejected => simp [settleItem, beginItem, length_updateAt]
    | resolved b => cases b <;> simp [settleItem, beginItem, length_updateAt]

theorem convertItem_convertedFiles (outcomes : Nat → Outcome) (acc : ImageConverter × List File)
    (k : Nat) :
    (convertItem outcomes acc k).1.convertedFiles =
      acc.1.convertedFiles ++ (if (outcomes k).succeeded then [k] else []) := by
  unfold convertItem
  cases h : outcomes k with
  | rejected => simp [settleItem, beginItem, Outcome.succeeded]
  | resolved b => cases b <;> simp [settleItem, beginItem, Outcome.succeeded]

theorem runUpTo_convertedFiles (s : ImageConverter) (outcomes : Nat → Outcome) (k : Nat) :
    (runUpTo s outcomes k).1.convertedFiles =
      s.convertedFiles ++ (List.range k).filter (fun i => (outcomes i).succeeded) := by
  induction k with
  | zero => simp [runUpTo]
  | succ k ih =>
    rw [runUpTo_succ, convertItem_convertedFiles, ih, List.range_succ, List.filter_append]
    by_cases h : (outcomes k).succeeded <;> simp [h]

theorem convertItem_frame (outcomes : Nat → Outcome) (acc : ImageConverter × List File)
    (k : Nat) :
    (convertItem outcomes acc k).1.statistics = acc.1.statistics ∧
      (convertItem outcomes acc k).1.outputFormat = acc.1.outputFormat := by
  unfold convertItem
  cases h : outcomes k with
  | rejected => simp [settleItem, beginItem]
  | resolved b => cases b <;> simp [settleItem, beginItem]

theorem runUpTo_frame (s : ImageConverter) (outcomes : Nat → Outcome) (k : Nat) :
    (runUpTo s outcomes k).1.statistics = s.statistics ∧
      (runUpTo s outcomes k).1.outputFormat = s.outputFormat := by
  induction k with
  | zero => simp [runUpTo]
  | succ k ih =>
    rw [runUpTo_succ]
    have h := convertItem_frame outcomes (runUpTo s outcomes k) k
    exact ⟨h.1.trans ih.1, h.2.trans ih.2⟩

theorem convertItem_calls (outcomes : Nat → Outcome) (acc : ImageConverter × List File)
    (k : Nat) :
    (convertItem outcomes acc k).2 =
      acc.2 ++ (acc.1.files[k]?.map (fun fd => fd.file)).toList := by
  unfold convertItem
  simp only [beginItem, getElem?_updateAt, if_true]
  cases acc.1.files[k]? <;> simp

theorem runUpTo_calls (s : ImageConverter) (outcomes : Nat → Outcome) (k : Nat) :
    (runUpTo s outcomes k).2 = (s.files.take k).map (fun fd => fd.file) := by
  induction k with
  | zero => simp [runUpTo]
  | succ k ih =>
    rw [runUpTo_succ, convertItem_calls, ih, runUpTo_files, List.take_succ]
    simp
    cases s.files[k]? <;> simp

theorem convertImages_files (s : ImageConverter) (outcomes : Nat → Outcome) (j : Nat) :
    (convertImages s outcomes).files[j]? =
      s.files[j]?.map (fun fd => settled fd (outcomes j)) := by
  have h := runUpTo_files (startRun s) outcomes s.files.length j
  simp only [convertImages, finishRun]
  rw [h]
  by_cases hj : j < s.files.length
  · simp [hj, startRun]
  · have : s.files[j]? = none := List.getElem?_eq_none (by omega)
    simp [hj, startRun, this]

theorem convertImages_length (s : ImageConverter) (outcomes : Nat → Outcome) :
    (convertImages s outcomes).files.length = s.files.length := by
  simp only [convertImages, finishRun]
  rw [runUpTo_length]
  rfl

theorem convertImages_convertedFiles (s : ImageConverter) (outcomes : Nat → Outcome) :
    (convertImages s outcomes).convertedFiles =
      s.convertedFiles ++
        (List.range s.files.length).filter (fun i => (outcomes i).succeeded) := by
  simp only [convertImages, finishRun]
  rw [runUpTo_convertedFiles]
  rfl

theorem settled_status (fd : FileData) (o : Outcome) :
    ((settled fd o).status = Status.error ↔ o.succeeded = false) ∧
      ((settled fd o).status = Status.completed ↔ o.succeeded = true) := by
  cases o with
  | rejected => simp [settled, Outcome.succeeded]
  | resolved b => cases b <;> simp [settled, Outcome.succeeded]

theorem settled_source (fd : FileData) (o : Outcome) :
    (settled fd o).file = fd.file ∧ (settled fd o).name = fd.name ∧
      (settled fd o).size = fd.size := by
  cases o with
  | rejected => simp [settled]
  | resolved b => cases b <;> simp [settled]

theorem addFile_keysUnique (files : List FileData) (file : File) (h : KeysUnique files) :
    KeysUnique (addFile files file) := by
  unfold addFile
  split
  · exact h
  · rename_i hfind
    have hnone : files.find? (fun f => f.name == file.name && f.size == file.size) = none := by
      cases hf : files.find? (fun f => f.name == file.name && f.size == file.size) with
      | none => rfl
      | some x => rw [hf] at hfind; simp at hfind
    rw [List.find?_eq_none] at hnone
    unfold KeysUnique at *
    rw [List.pairwise_append]
    refine ⟨h, List.pairwise_singleton _ _, ?_⟩
    intro a ha b hb
    rw [List.mem_singleton] at hb
    subst hb
    intro hab
    apply hnone a ha
    simp [newFileData] at hab
    simp [hab.1, hab.2]

theorem foldl_addFile_keysUnique (input : List File) :
    ∀ files : List FileData, KeysUnique files → KeysUnique (input.foldl addFile files) := by
  induction input with
  | nil => intro files h; exact h
  | cons f rest ih =>
    intro files h
    exact ih _ (addFile_keysUnique files f h)

/-- C1. `addFiles` preserves key uniqueness: if no two items of `this.files`
share the pair (name, size), then after `addFiles(files)`, for any input list
(repeats included), no two items share it; and two files of equal name and
size admitted into an empty registry leave exactly one entry. -/
theorem addFiles_preserves_keysUnique :
    (∀ (s : ImageConverter) (files : List File),
        KeysUnique s.files → KeysUnique (addFiles s files).files) ∧
    (∀ (s : ImageConverter) (f g : File), s.files = [] → f.name = g.name → f.size = g.size →
        (addFiles s [f, g]).files = [newFileData f] ∧ (addFiles s [f, g]).files.length = 1) := by
  constructor
  · intro s files h
    exact foldl_addFile_keysUnique files s.files h
  · intro s f g hs hn hz
    simp [addFiles, addFile, hs, newFileData, hn, hz]

theorem addFiles_preserves_keysUnique_witness :
    KeysUnique sampleRegistry.files ∧ (addFiles sampleRegistry sampleInput).files.length = 4 ∧
      KeysUnique (addFiles sampleRegistry sampleInput).files :=
  ⟨by decide, by decide, addFiles_preserves_keysUnique.1 sampleRegistry sampleInput (by decide)⟩

/-- C2. Once `convertImages` has completed, every item of `this.files` has
status "completed" or "error", whatever the outcome of each conversion; none is
left "pending" or "processing". (Holds for the empty registry as well.) -/
theorem convertImages_all_terminal (s : ImageConverter) (outcomes : Nat → Outcome)
    (fd : FileData) (h : fd ∈ (convertImages s outcomes).files) :
    (fd.status = Status.completed ∨ fd.status = Status.error) ∧
      fd.status ≠ Status.pending ∧ fd.status ≠ Status.processing := by
  obtain ⟨j, hj⟩ := List.mem_iff_getElem?.1 h
  rw [convertImages_files] at hj
  cases h0 : s.files[j]? with
  | none => rw [h0] at hj; simp at hj
  | some fd0 =>
    rw [h0] at hj
    simp at hj
    subst hj
    cases ho : outcomes j with
    | rejected => simp [settled]
    | resolved b => cases b <;> simp [settled]

theorem convertImages_all_terminal_witness :
    twoFailed ∈ (convertImages (addFiles initial threeFiles) (oneFails 1)).files ∧
      ((twoFailed.status = Status.completed ∨ twoFailed.status = Status.error) ∧
        twoFailed.status ≠ Status.pending ∧ twoFailed.status ≠ Status.processing) :=
  ⟨by decide,
    convertImages_all_terminal (addFiles initial threeFiles) (oneFails 1) twoFailed (by decide)⟩

theorem filter_take_length (files : List FileData) (p : FileData → Bool) (q : Nat → Bool)
    (hpq : ∀ i fd, files[i]? = some fd → p fd = q i) :
    ∀ k, k ≤ files.length →
      ((files.take k).filter p).length = ((List.range k).filter q).length := by
  intro k
  induction k with
  | zero => intro _; simp
  | succ k ih =>
    intro hk
    have hlt : k < files.length := by omega
    rw [List.take_succ, List.range_succ, List.filter_append, List.filter_append,
      List.length_append, List.length_append, ih (by omega)]
    have hget : files[k]? = some files[k] := List.getElem?_eq_getElem hlt
    rw [hget]
    have := hpq k files[k] hget
    simp only [Option.toList, List.filter_cons, this, List.filter_nil]
    by_cases hq : q k = true <;> simp [hq]

/-- C4. A failing item never aborts the batch: `convertImages` calls
`convertSingleImage` on every item, in registry order; afterwards item `i` is
the item that was at position `i`, with status "error" exactly when its own
conversion failed and "completed" exactly when it succeeded; hence the number
of "error" items is the number of failed conversions. With three files of 100,
200 and 300 bytes of which one (any one) cannot be decoded: three files, 600
bytes, exactly one "error" item, and the compressed size of the two others. -/
theorem convertImages_isolates_failures :
    (∀ (s : ImageConverter) (outcomes : Nat → Outcome),
      (convertImages s outcomes).files.length = s.files.length ∧
      convertCalls s outcomes = s.files.map (fun fd => fd.file) ∧
      (∀ i fd, (convertImages s outcomes).files[i]? = some fd →
        (∃ fd0, s.files[i]? = some fd0 ∧ fd.file = fd0.file ∧ fd.name = fd0.name ∧
          fd.size = fd0.size) ∧
        (fd.status = Status.error ↔ (outcomes i).succeeded = false) ∧
        (fd.status = Status.completed ↔ (outcomes i).succeeded = true)) ∧
      errorCount (convertImages s outcomes).files =
        ((List.range s.files.length).filter (fun i => !(outcomes i).succeeded)).length) ∧
    (∀ j : Fin 3,
      errorCount (convertImages (addFiles initial threeFiles) (oneFails j)).files = 1 ∧
      (convertImages (addFiles initial threeFiles) (oneFails j)).statistics =
        { totalFiles := 3, originalSize := 600, compressedSize := 80 }) := by
  refine ⟨?_, by decide⟩
  intro s outcomes
  have hchar : ∀ i fd, (convertImages s outcomes).files[i]? = some fd →
      ∃ fd0, s.files[i]? = some fd0 ∧ fd = settled fd0 (outcomes i) := by
    intro i fd h
    rw [convertImages_files] at h
    cases h0 : s.files[i]? with
    | none => rw [h0] at h; simp at h
    | some fd0 =>
      rw [h0] at h
      simp at h
      exact ⟨fd0, rfl, h.symm⟩
  refine ⟨convertImages_length s outcomes, ?_, ?_, ?_⟩
  · unfold convertCalls
    rw [runUpTo_calls]
    simp [startRun]
  · intro i fd h
    obtain ⟨fd0, h0, rfl⟩ := hchar i fd h
    exact ⟨⟨fd0, h0, settled_source fd0 (outcomes i)⟩, settled_status fd0 (outcomes i)⟩
  · have hlen := convertImages_length s outcomes
    have key := filter_take_length (convertImages s outcomes).files
      (fun fd => decide (fd.status = Status.error)) (fun i => !(outcomes i).succeeded)
      (by
        intro i fd h
        obtain ⟨fd0, _, rfl⟩ := hchar i fd h
        have hs := (settled_status fd0 (outcomes i)).1
        cases hsu : (outcomes i).succeeded <;> simp [hsu] at hs ⊢ <;> exact hs)
      s.files.length (by omega)
    unfold errorCount
    rw [← key, ← hlen, List.take_length]

theorem foldl_add_eq_sum (g : Nat → Nat) (l : List Nat) :
    ∀ a, l.foldl (fun sum r => sum + g r) a = a + (l.map g).sum := by
  induction l with
  | nil => intro a; simp
  | cons x xs ih => intro a; simp [ih, Nat.add_assoc]

theorem foldl_size_eq_sum (l : List FileData) :
    ∀ a, l.foldl (fun sum file => sum + file.size) a = a + (l.map (fun fd => fd.size)).sum := by
  induction l with
  | nil => intro a; simp
  | cons x xs ih => intro a; simp [ih, Nat.add_assoc]

theorem convertImages_statistics (s : ImageConverter) (outcomes : Nat → Outcome) :
    (convertImages s outcomes).statistics.totalFiles = s.files.length ∧
    (convertImages s outcomes).statistics.originalSize = (s.files.map (fun fd => fd.size)).sum ∧
    (convertImages s outcomes).statistics.compressedSize =
      (((convertImages s outcomes).convertedFiles).map
        (convertedSizeAt (convertImages s outcomes).files)).sum := by
  have hf := (runUpTo_frame (startRun s) outcomes s.files.length).1
  refine ⟨?_, ?_, ?_⟩
  · simp only [convertImages, finishRun]
    rw [hf]
    rfl
  · simp only [convertImages, finishRun]
    rw [hf]
    simp [startRun, foldl_size_eq_sum]
  · simp [convertImages, finishRun, foldl_add_eq_sum]

theorem convertedSizeAt_convertImages (s : ImageConverter) (outcomes : Nat → Outcome) (r : Nat)
    (hr : r < s.files.length) (hs : (outcomes r).succeeded = true) :
    convertedSizeAt (convertImages s outcomes).files r = blobSize (outcomes r) := by
  unfold convertedSizeAt
  rw [convertImages_files, List.getElem?_eq_getElem hr]
  cases ho : outcomes r with
  | rejected => rw [ho] at hs; simp [Outcome.succeeded] at hs
  | resolved b =>
    cases b with
    | none => rw [ho] at hs; simp [Outcome.succeeded] at hs
    | some blob => simp [settled, blobSize]

theorem registryOf_convertedFiles (batches : List (List File)) :
    ∀ s : ImageConverter, (batches.foldl addFiles s).convertedFiles = s.convertedFiles := by
  induction batches with
  | nil => intro s; rfl
  | cons b rest ih => intro s; rw [List.foldl_cons, ih]; rfl

theorem filter_range_of_all (n : Nat) (q : Nat → Bool) (h : ∀ i, i < n → q i = true) :
    (List.range n).filter q = List.range n := by
  rw [List.filter_eq_self]
  intro a ha
  exact h a (List.mem_range.1 ha)

/-- C10. Running `convertImages` twice in a row on a registry built by
`addFiles` from the initial state, every conversion succeeding in both runs:
`convertedFiles` then holds every item twice (2n entries), `compressedSize` is
twice the sum of the sizes converted in the second run (which are the items'
`convertedSize`), while `totalFiles` is n and `originalSize` is the sum of the n
source sizes. -/
theorem rerun_double_counts (batches : List (List File)) (first second : Nat → Outcome)
    (h1 : ∀ i, i < (registryOf batches).files.length → (first i).succeeded = true)
    (h2 : ∀ i, i < (registryOf batches).files.length → (second i).succeeded = true) :
    (convertImages (convertImages (registryOf batches) first) second).convertedFiles =
      List.range (registryOf batches).files.length ++
        List.range (registryOf batches).files.length ∧
    (convertImages (convertImages (registryOf batches) first) second).convertedFiles.length =
      2 * (registryOf batches).files.length ∧
    (convertImages (convertImages (registryOf batches) first) second).statistics.compressedSize =
      2 * ((List.range (registryOf batches).files.length).map
        (fun i => blobSize (second i))).sum ∧
    (convertImages (convertImages (registryOf batches) first) second).statistics.compressedSize =
      2 * ((convertImages (convertImages (registryOf batches) first) second).files.map
        (fun fd => fd.convertedSize)).sum ∧
    (convertImages (convertImages (registryOf batches) first) second).statistics.totalFiles =
      (registryOf batches).files.length ∧
    (convertImages (convertImages (registryOf batches) first) second).statistics.originalSize =
      ((registryOf batches).files.map (fun fd => fd.size)).sum := by
  have hn1 := convertImages_length (registryOf batches) first
  have hn2 := convertImages_length (convertImages (registryOf batches) first) second
  have hc0 : (registryOf batches).convertedFiles = [] :=
    registryOf_convertedFiles batches initial
  have hc1 : (convertImages (registryOf batches) first).convertedFiles =
      List.range (registryOf batches).files.length := by
    rw [convertImages_convertedFiles, hc0, filter_range_of_all _ _ h1]
    rfl
  have hc2 : (convertImages (convertImages (registryOf batches) first) second).convertedFiles =
      List.range (registryOf batches).files.length ++
        List.range (registryOf batches).files.length := by
    rw [convertImages_convertedFiles, hc1, hn1, filter_range_of_all _ _ h2]
  have hst1 := convertImages_statistics (registryOf batches) first
  have hst2 := convertImages_statistics (convertImages (registryOf batches) first) second
  have hsize : ∀ r ∈ List.range (registryOf batches).files.length,
      convertedSizeAt (convertImages (convertImages (registryOf batches) first) second).files r =
        blobSize (second r) := by
    intro r hr
    have hr' := List.mem_range.1 hr
    exact convertedSizeAt_convertImages _ second r (by omega) (h2 r hr')
  have hcomp :
      (convertImages (convertImages (registryOf batches) first) second).statistics.compressedSize =
        2 * ((List.range (registryOf batches).files.length).map
          (fun i => blobSize (second i))).sum := by
    rw [hst2.2.2, hc2, List.map_append, List.sum_append, List.map_congr_left hsize]
    omega
  have hitems :
      (convertImages (convertImages (registryOf batches) first) second).files.map
          (fun fd => fd.convertedSize) =
        (List.range (registryOf batches).files.length).map (fun i => blobSize (second i)) := by
    apply List.ext_getElem?
    intro j
    rw [List.getElem?_map, List.getElem?_map]
    by_cases hj : j < (registryOf batches).files.length
    · have hsz := hsize j (List.mem_range.2 hj)
      unfold convertedSizeAt at hsz
      rw [List.getElem?_range hj]
      have hlt : j < (convertImages (convertImages (registryOf batches) first) second).files.length := by
        omega
      rw [List.getElem?_eq_getElem hlt] at hsz ⊢
      simp at hsz ⊢
      exact hsz
    · rw [List.getElem?_eq_none (by omega), List.getElem?_eq_none (by simp; omega)]
      rfl
  refine ⟨hc2, ?_, hcomp, ?_, ?_, ?_⟩
  · rw [hc2]; simp; omega
  · rw [hcomp, hitems]
  · rw [hst2.1, hn1]
  · rw [hst2.2.1]
    congr 1
    apply List.ext_getElem?
    intro j
    rw [List.getElem?_map, List.getElem?_map, convertImages_files]
    cases (registryOf batches).files[j]? with
    | none => rfl
    | some fd => simp [(settled_source fd (first j)).2.2]

theorem rerun_double_counts_witness :
    (registryOf twoBatches).files.length = 2 ∧
    (convertImages (convertImages (registryOf twoBatches)
        (fun _ => Outcome.resolved (some ⟨60⟩)))
        (fun i => Outcome.resolved (some ⟨40 + i⟩))).convertedFiles = [0, 1, 0, 1] ∧
    (convertImages (convertImages (registryOf twoBatches)
        (fun _ => Outcome.resolved (some ⟨60⟩)))
        (fun i => Outcome.resolved (some ⟨40 + i⟩))).statistics =
      { totalFiles := 2, originalSize := 350, compressedSize := 162 } := by
  have h := rerun_double_counts twoBatches (fun _ => Outcome.resolved (some ⟨60⟩))
    (fun i => Outcome.resolved (some ⟨40 + i⟩)) (fun _ _ => rfl) (fun _ _ => rfl)
  exact ⟨by decide, h.1, by decide⟩

theorem completedSizeSum_take (files : List FileData) (q : Nat → Bool)
    (hq : ∀ i fd, files[i]? = some fd → decide (fd.status = Status.completed) = q i) :
    ∀ k, k ≤ files.length →
      completedSizeSum (files.take k) =
        (((List.range k).filter q).map (convertedSizeAt files)).sum := by
  intro k
  induction k with
  | zero => intro _; simp [completedSizeSum]
  | succ k ih =>
    intro hk
    have hlt : k < files.length := by omega
    have hget : files[k]? = some files[k] := List.getElem?_eq_getElem hlt
    have hk' := hq k files[k] hget
    have ih' := ih (by omega)
    unfold completedSizeSum at ih' ⊢
    rw [List.take_succ, List.range_succ, List.filter_append, List.filter_append,
      List.map_append, List.map_append, List.sum_append, List.sum_append, ih', hget]
    congr 1
    by_cases hqk : q k = true
    · rw [hqk] at hk'
      simp [List.filter_cons, hqk, convertedSizeAt, hget] at hk' ⊢
      simp [hk']
    · simp only [Bool.not_eq_true] at hqk
      rw [hqk] at hk'
      simp [List.filter_cons, hqk] at hk' ⊢
      simp [hk']

/-- The first run after the constructor or `clearFiles` (no reference held in
`convertedFiles`): `compressedSize` is the sum of `convertedSize` over exactly
the items whose status is "completed" after the run. -/
theorem convertImages_compressedSize_of_fresh (s : ImageConverter) (outcomes : Nat → Outcome)
    (h : s.convertedFiles = []) :
    (convertImages s outcomes).statistics.compressedSize =
      completedSizeSum (convertImages s outcomes).files := by
  have hlen := convertImages_length s outcomes
  have key := completedSizeSum_take (convertImages s outcomes).files
    (fun i => (outcomes i).succeeded)
    (by
      intro i fd hfd
      rw [convertImages_files] at hfd
      cases h0 : s.files[i]? with
      | none => rw [h0] at hfd; simp at hfd
      | some fd0 =>
        rw [h0] at hfd
        simp at hfd
        subst hfd
        have hs := (settled_status fd0 (outcomes i)).2
        cases hsu : (outcomes i).succeeded <;> simp [hsu] at hs ⊢ <;> exact hs)
    s.files.length (by omega)
  rw [(convertImages_statistics s outcomes).2.2, convertImages_convertedFiles, h,
    List.nil_append, ← key, ← hlen, List.take_length]

theorem convertImages_compressedSize_of_fresh_witness :
    (addFiles initial threeFiles).convertedFiles = [] ∧
      (convertImages (addFiles initial threeFiles) (oneFails 0)).statistics.compressedSize =
        completedSizeSum (convertImages (addFiles initial threeFiles) (oneFails 0)).files :=
  ⟨rfl, convertImages_compressedSize_of_fresh _ _ rfl⟩

/-- C3, evaluated on a repeated run. One file converted twice with success
(40 bytes each time): the only item is "completed" with `convertedSize` 40,
yet `compressedSize` is 80, because `convertedFiles` still holds the
reference pushed by the first run. -/
theorem compressedSize_counts_earlier_runs :
    (convertImages (convertImages (addFiles initial oneFile) allSucceed) allSucceed).files.map
        (fun fd => (fd.status, fd.convertedSize)) = [(Status.completed, 40)] ∧
    completedSizeSum
      (convertImages (convertImages (addFiles initial oneFile) allSucceed) allSucceed).files = 40 ∧
    (convertImages (convertImages (addFiles initial oneFile) allSucceed)
      allSucceed).statistics.compressedSize = 80 ∧
    (convertImages (convertImages (addFiles initial oneFile) allSucceed)
      allFail).statistics.compressedSize = 40 ∧
    completedSizeSum
      (convertImages (convertImages (addFiles initial oneFile) allSucceed) allFail).files = 0 := by
  decide

/-- C5, evaluated on a repeated run. After one successful run, the second run
sets the status of the item to "processing" while `convertedBlob` still holds
the blob of the first run; if the second conversion is rejected the item ends
with status "error" and the old blob. Both states break the invariant. -/
theorem stale_blob_on_rerun :
    (∃ s, Observable s ∧ ∃ fd ∈ s.files,
        fd.status = Status.processing ∧ fd.convertedBlob = some ⟨40⟩ ∧ ¬ BlobIffCompleted fd) ∧
    (∃ s, Reachable s ∧ ∃ fd ∈ s.files,
        fd.status = Status.error ∧ fd.convertedBlob = some ⟨40⟩ ∧ ¬ BlobIffCompleted fd) := by
  have hr : Reachable (convertImages (addFiles initial oneFile) allSucceed) :=
    Reachable.convertImages allSucceed (Reachable.addFiles oneFile Reachable.init)
  constructor
  · refine ⟨duringItem (convertImages (addFiles initial oneFile) allSucceed) allFail 0,
      Observable.converting allFail 0 hr (by decide), ?_⟩
    refine ⟨{ newFileData ⟨"a.png", 100, "image/png"⟩ with
      status := Status.processing, convertedBlob := some ⟨40⟩, convertedSize := 40 }, ?_⟩
    decide
  · refine ⟨convertImages (convertImages (addFiles initial oneFile) allSucceed) allFail,
      Reachable.convertImages allFail hr, ?_⟩
    refine ⟨{ newFileData ⟨"a.png", 100, "image/png"⟩ with
      status := Status.error, convertedBlob := some ⟨40⟩, convertedSize := 40 }, ?_⟩
    decide

theorem mem_foldl_addFile (input : List File) :
    ∀ (files : List FileData) (fd : FileData), fd ∈ input.foldl addFile files →
      fd ∈ files ∨ ∃ f ∈ input, fd = newFileData f := by
  induction input with
  | nil => intro files fd h; exact Or.inl h
  | cons f rest ih =>
    intro files fd h
    rcases ih (addFile files f) fd h with h1 | ⟨g, hg, rfl⟩
    · unfold addFile at h1
      split at h1
      · exact Or.inl h1
      · rcases List.mem_append.1 h1 with h2 | h2
        · exact Or.inl h2
        · exact Or.inr ⟨f, List.mem_cons_self _ _, List.mem_singleton.1 h2⟩
    · exact Or.inr ⟨g, List.mem_cons_of_mem _ hg, rfl⟩

theorem settled_completed_has_blob (fd : FileData) (o : Outcome)
    (h : (settled fd o).status = Status.completed) : (settled fd o).convertedBlob ≠ none := by
  cases o with
  | rejected => simp [settled] at h
  | resolved b =>
    cases b with
    | none => simp [settled] at h
    | some blob => simp [settled]

theorem mem_runUpTo_files (s : ImageConverter) (outcomes : Nat → Outcome) (k : Nat)
    (fd : FileData) (h : fd ∈ (runUpTo s outcomes k).1.files) :
    fd ∈ s.files ∨ ∃ fd0 ∈ s.files, ∃ o, fd = settled fd0 o := by
  obtain ⟨j, hj⟩ := List.mem_iff_getElem?.1 h
  rw [runUpTo_files] at hj
  split at hj
  · cases h0 : s.files[j]? with
    | none => rw [h0] at hj; simp at hj
    | some fd0 =>
      rw [h0] at hj
      simp at hj
      exact Or.inr ⟨fd0, List.mem_iff_getElem?.2 ⟨j, h0⟩, outcomes j, hj.symm⟩
  · exact Or.inl (List.mem_iff_getElem?.2 ⟨j, hj⟩)

theorem mem_updateAt (files : List FileData) (i : Nat) (f : FileData → FileData)
    (fd : FileData) (h : fd ∈ updateAt files i f) :
    fd ∈ files ∨ ∃ fd0 ∈ files, fd = f fd0 := by
  obtain ⟨j, hj⟩ := List.mem_iff_getElem?.1 h
  rw [getElem?_updateAt] at hj
  split at hj
  · cases h0 : files[i]? with
    | none => rw [h0] at hj; simp at hj
    | some fd0 =>
      rw [h0] at hj
      simp at hj
      exact Or.inr ⟨fd0, List.mem_iff_getElem?.2 ⟨i, h0⟩, hj.symm⟩
  · exact Or.inl (List.mem_iff_getElem?.2 ⟨j, hj⟩)

theorem reachable_completed_has_blob (s : ImageConverter) (h : Reachable s) :
    ∀ fd ∈ s.files, fd.status = Status.completed → fd.convertedBlob ≠ none := by
  induction h with
  | init => intro fd hfd; simp [initial] at hfd
  | addFiles files _ ih =>
    intro fd hfd hc
    rcases mem_foldl_addFile files _ fd hfd with h1 | ⟨f, _, rfl⟩
    · exact ih fd h1 hc
    · simp [newFileData] at hc
  | convertImages outcomes _ ih =>
    intro fd hfd hc
    rcases mem_runUpTo_files _ outcomes _ fd hfd with h1 | ⟨fd0, _, o, rfl⟩
    · exact ih fd h1 hc
    · exact settled_completed_has_blob fd0 o hc
  | clearFiles _ _ => intro fd hfd; simp [clearFiles] at hfd

/-- One half of the invariant holds in every state that can be seen, inside a
run of `convertImages` included: an item whose status is "completed" has its
`convertedBlob` set. -/
theorem observable_completed_has_blob (s : ImageConverter) (h : Observable s)
    (fd : FileData) (hfd : fd ∈ s.files) (hc : fd.status = Status.completed) :
    fd.convertedBlob ≠ none := by
  cases h with
  | idle hr => exact reachable_completed_has_blob s hr fd hfd hc
  | between outcomes k hr _ =>
    rcases mem_runUpTo_files _ outcomes k fd hfd with h1 | ⟨fd0, _, o, rfl⟩
    · exact reachable_completed_has_blob _ hr fd h1 hc
    · exact settled_completed_has_blob fd0 o hc
  | converting outcomes k hr _ =>
    rcases mem_updateAt _ k _ fd hfd with h1 | ⟨fd0, _, rfl⟩
    · rcases mem_runUpTo_files _ outcomes k fd h1 with h2 | ⟨fd0, _, o, rfl⟩
      · exact reachable_completed_has_blob _ hr fd h2 hc
      · exact settled_completed_has_blob fd0 o hc
    · simp at hc

theorem observable_completed_has_blob_witness :
    Observable (convertImages (addFiles initial oneFile) allSucceed) ∧
      (settled (newFileData ⟨"a.png", 100, "image/png"⟩) (allSucceed 0)).convertedBlob ≠ none :=
  ⟨Observable.idle (Reachable.convertImages allSucceed (Reachable.addFiles oneFile Reachable.init)),
    observable_completed_has_blob _
      (Observable.idle
        (Reachable.convertImages allSucceed (Reachable.addFiles oneFile Reachable.init)))
      _ (by decide) (by decide)⟩

theorem registryOf_allPending (batches : List (List File)) : AllPending (registryOf batches) := by
  have gen : ∀ (bs : List (List File)) (s : ImageConverter), AllPending s →
      AllPending (bs.foldl addFiles s) := by
    intro bs
    induction bs with
    | nil => intro s h; exact h
    | cons b rest ih =>
      intro s h
      apply ih
      intro fd hfd
      rcases mem_foldl_addFile b _ fd hfd with h1 | ⟨f, _, rfl⟩
      · exact h fd h1
      · exact ⟨rfl, rfl⟩
  apply gen
  intro fd hfd
  simp [initial] at hfd

theorem settled_blobIffCompleted (fd : FileData) (o : Outcome)
    (h : fd.convertedBlob = none) : BlobIffCompleted (settled fd o) := by
  unfold BlobIffCompleted
  cases o with
  | rejected => simp [settled, h]
  | resolved b => cases b <;> simp [settled]

/-- The invariant holds up to the end of the first run: on a registry whose
items are all as `addFiles` built them, in every state of a run of
`convertImages` (between iterations, while an item is converted, and at the
end) `convertedBlob` is set exactly when the status is "completed". -/
theorem blobIffCompleted_first_run (s : ImageConverter) (outcomes : Nat → Outcome) (k : Nat)
    (h : AllPending s) :
    (∀ fd ∈ (runUpTo (startRun s) outcomes k).1.files, BlobIffCompleted fd) ∧
    (∀ fd ∈ (duringItem s outcomes k).files, BlobIffCompleted fd) ∧
    (∀ fd ∈ (convertImages s outcomes).files, BlobIffCompleted fd) := by
  have hold : ∀ fd ∈ s.files, BlobIffCompleted fd := by
    intro fd hfd
    have := h fd hfd
    simp [BlobIffCompleted, this.1, this.2]
  have hrun : ∀ n, ∀ fd ∈ (runUpTo (startRun s) outcomes n).1.files, BlobIffCompleted fd := by
    intro n fd hfd
    rcases mem_runUpTo_files _ outcomes n fd hfd with h1 | ⟨fd0, h0, o, rfl⟩
    · exact hold fd h1
    · exact settled_blobIffCompleted fd0 o (h fd0 h0).2
  refine ⟨hrun k, ?_, hrun s.files.length⟩
  intro fd hfd
  rcases mem_updateAt _ k _ fd hfd with h1 | ⟨fd0, h0, rfl⟩
  · exact hrun k fd h1
  · -- the item being converted: it was not settled before in this run
    obtain ⟨j, hj⟩ := List.mem_iff_getElem?.1 hfd
    simp only [duringItem, beginItem, getElem?_updateAt] at hj
    by_cases hjk : j = k
    · subst hjk
      rw [if_pos rfl, runUpTo_files, if_neg (Nat.lt_irrefl _)] at hj
      cases h1 : (startRun s).files[j]? with
      | none => rw [h1] at hj; simp at hj
      | some fd1 =>
        rw [h1] at hj
        simp at hj
        have hp := h fd1 (List.mem_iff_getElem?.2 ⟨j, h1⟩)
        simp [BlobIffCompleted, ← hj.2.2.2.1, hp.2]
    · rw [if_neg hjk] at hj
      have : { fd0 with status := Status.processing } ∈ (runUpTo (startRun s) outcomes k).1.files :=
        List.mem_iff_getElem?.2 ⟨j, hj⟩
      exact hrun k _ this

theorem blobIffCompleted_first_run_witness :
    AllPending (registryOf twoBatches) ∧
      ∀ fd ∈ (duringItem (registryOf twoBatches) (oneFails 0) 1).files, BlobIffCompleted fd :=
  ⟨registryOf_allPending twoBatches,
    (blobIffCompleted_first_run (registryOf twoBatches) (oneFails 0) 1
      (registryOf_allPending twoBatches)).2.1⟩

theorem lastIndexFrom_of_not_mem (c : Char) (cs : List Char) (h : c ∉ cs) :
    ∀ (i : Nat) (last : Int), lastIndexFrom c cs i last = last := by
  induction cs with
  | nil => intro i last; rfl
  | cons x xs ih =>
    intro i last
    have hx : x ≠ c := fun e => h (e ▸ List.mem_cons_self _ _)
    have hxs : c ∉ xs := fun m => h (List.mem_cons_of_mem _ m)
    simp [lastIndexFrom, hx, ih hxs]

theorem lastIndexFrom_append (c : Char) (b : List Char) (h : c ∉ b) (a : List Char) :
    ∀ (i : Nat) (last : Int), lastIndexFrom c (a ++ c :: b) i last = ((i + a.length : Nat) : Int) := by
  induction a with
  | nil =>
    intro i last
    simp [lastIndexFrom, lastIndexFrom_of_not_mem c b h]
  | cons x xs ih =>
    intro i last
    rw [List.cons_append, lastIndexFrom, ih, List.length_cons]
    congr 1
    omega

theorem substring_zero_neg (cs : List Char) : substring cs 0 (-1) = [] := by
  simp [substring]

theorem substring_zero_nat (cs : List Char) (n : Nat) (h : n ≤ cs.length) :
    substring cs 0 (n : Int) = cs.take n := by
  simp [substring, h]

/-- A name without any point loses the whole of its base name: the result is
"_converted." followed by the extension. -/
theorem getConvertedFileName_of_no_point (s : ImageConverter) (originalName : String)
    (h : '.' ∉ originalName.data) :
    getConvertedFileName s originalName =
      "_converted." ++ (if s.outputFormat = "jpeg" then "jpg" else s.outputFormat) := by
  unfold getConvertedFileName lastIndexOf
  simp only [lastIndexFrom_of_not_mem '.' originalName.data h, substring_zero_neg]
  rfl

theorem getConvertedFileName_of_no_point_witness :
    '.' ∉ "photo".data ∧ getConvertedFileName initial "photo" = "_converted." ++ "jpg" :=
  ⟨by decide, getConvertedFileName_of_no_point initial "photo" (by decide)⟩

/-- A name with a point loses the suffix that starts at its last point, and
gets "_converted." and the extension ("jpg" for the format "jpeg", the format
name otherwise). -/
theorem getConvertedFileName_of_point (s : ImageConverter) (base ext : List Char)
    (h : '.' ∉ ext) :
    getConvertedFileName s (String.mk (base ++ '.' :: ext)) =
      String.mk base ++ "_converted." ++
        (if s.outputFormat = "jpeg" then "jpg" else s.outputFormat) := by
  unfold getConvertedFileName lastIndexOf
  simp only [lastIndexFrom_append '.' ext h base]
  rw [Nat.zero_add, substring_zero_nat _ _ (by simp)]
  simp

theorem getConvertedFileName_of_point_witness :
    '.' ∉ "png".data ∧
      getConvertedFileName { initial with outputFormat := "webp" } "holiday.2024.png" =
        "holiday.2024_converted.webp" :=
  ⟨by decide,
    getConvertedFileName_of_point { initial with outputFormat := "webp" }
      "holiday.2024".data "png".data (by decide)⟩

/-- C6, evaluated on a name without extension: for "photo" and the format
"jpeg" the result is "_converted.jpg", not "photo_converted.jpg":
`lastIndexOf` returns -1 and `substring(0, -1)` is the empty string. -/
theorem getConvertedFileName_drops_name_without_point :
    lastIndexOf "photo".data '.' = -1 ∧
    getConvertedFileName initial "photo" = "_converted.jpg" ∧
    getConvertedFileName initial "photo" ≠ "photo_converted.jpg" ∧
    getConvertedFileName initial "photo.png" = "photo_converted.jpg" := by
  decide

/-- With a positive original size the reduction is a finite number whose sign
tells whether the output shrank, kept its size or grew. -/
theorem totalReduction_sign (stats : Statistics) (h : 0 < stats.originalSize) :
    ∃ q : ℚ, totalReduction stats = JSNumber.finite q ∧
      (q = 0 ↔ stats.compressedSize = stats.originalSize) ∧
      (0 < q ↔ stats.compressedSize < stats.originalSize) ∧
      (q < 0 ↔ stats.originalSize < stats.compressedSize) := by
  have ho : (0 : ℚ) < (stats.originalSize : ℚ) := by exact_mod_cast h
  have hne : (stats.originalSize : ℚ) ≠ 0 := ne_of_gt ho
  refine ⟨((stats.originalSize : ℚ) - stats.compressedSize) / stats.originalSize * 100, ?_, ?_, ?_, ?_⟩
  · simp [totalReduction, jsDivide, jsTimes, hne]
  · constructor
    · intro hq
      have : ((stats.originalSize : ℚ) - stats.compressedSize) = 0 := by
        rcases mul_eq_zero.1 hq with h1 | h1
        · rcases div_eq_zero_iff.1 h1 with h2 | h2
          · exact h2
          · exact absurd h2 hne
        · norm_num at h1
      have h3 : (stats.compressedSize : ℚ) = stats.originalSize := by linarith
      exact_mod_cast h3
    · intro hc
      rw [hc]
      simp
  · constructor
    · intro hq
      have h1 : 0 < ((stats.originalSize : ℚ) - stats.compressedSize) / stats.originalSize := by
        by_contra hneg
        push_neg at hneg
        nlinarith
      have h2 : 0 < (stats.originalSize : ℚ) - stats.compressedSize := by
        by_contra hneg
        push_neg at hneg
        have := div_nonpos_of_nonpos_of_nonneg hneg (le_of_lt ho)
        linarith
      have h3 : (stats.compressedSize : ℚ) < stats.originalSize := by linarith
      exact_mod_cast h3
    · intro hc
      have h3 : (stats.compressedSize : ℚ) < stats.originalSize := by exact_mod_cast hc
      have h2 : 0 < (stats.originalSize : ℚ) - stats.compressedSize := by linarith
      have := div_pos h2 ho
      linarith
  · constructor
    · intro hq
      have h1 : ((stats.originalSize : ℚ) - stats.compressedSize) / stats.originalSize < 0 := by
        by_contra hneg
        push_neg at hneg
        nlinarith
      have h2 : (stats.originalSize : ℚ) - stats.compressedSize < 0 := by
        by_contra hneg
        push_neg at hneg
        have := div_nonneg hneg (le_of_lt ho)
        linarith
      have h3 : (stats.originalSize : ℚ) < stats.compressedSize := by linarith
      exact_mod_cast h3
    · intro hc
      have h3 : (stats.originalSize : ℚ) < stats.compressedSize := by exact_mod_cast hc
      have h2 : (stats.originalSize : ℚ) - stats.compressedSize < 0 := by linarith
      have := div_neg_of_neg_of_pos h2 ho
      linarith

theorem totalReduction_sign_witness :
    0 < (Statistics.mk 1 100 50).originalSize ∧
      ∃ q : ℚ, totalReduction ⟨1, 100, 50⟩ = JSNumber.finite q ∧
        (q = 0 ↔ (50 : Nat) = 100) ∧ (0 < q ↔ (50 : Nat) < 100) ∧ (q < 0 ↔ (100 : Nat) < 50) :=
  ⟨by decide, totalReduction_sign ⟨1, 100, 50⟩ (by decide)⟩

/-- C8, evaluated where both sizes are 0: one empty file whose conversion is
rejected gives `originalSize` 0 and `compressedSize` 0, and `totalReduction`
is `0 / 0 * 100`, that is `NaN`, not 0; `averageReduction` is `NaN` as well,
although its own divisor is guarded by `Math.max(..., 1)`. -/
theorem totalReduction_nan_of_zero_sizes :
    (convertImages (addFiles initial emptyFile) allFail).statistics =
      { totalFiles := 1, originalSize := 0, compressedSize := 0 } ∧
    totalReduction (convertImages (addFiles initial emptyFile) allFail).statistics =
      JSNumber.nan ∧
    totalReduction (convertImages (addFiles initial emptyFile) allFail).statistics ≠
      JSNumber.finite 0 ∧
    averageReduction (convertImages (addFiles initial emptyFile) allFail).statistics =
      JSNumber.nan := by
  have hs : (convertImages (addFiles initial emptyFile) allFail).statistics =
      { totalFiles := 1, originalSize := 0, compressedSize := 0 } := by decide
  rw [hs]
  simp [averageReduction, totalReduction, jsDivide, jsTimes]

theorem floorLogAux_eq_log (k : Nat) (hk : 1 < k) :
    ∀ fuel n, n ≤ fuel → floorLogAux k fuel n = Nat.log k n := by
  intro fuel
  induction fuel with
  | zero =>
    intro n hn
    have : n = 0 := by omega
    subst this
    simp [floorLogAux]
  | succ fuel ih =>
    intro n hn
    unfold floorLogAux
    by_cases hkn : k ≤ n
    · have hpos : 0 < n := by omega
      have hdiv : n / k < n := Nat.div_lt_self hpos hk
      rw [if_pos hkn, ih (n / k) (by omega), Nat.log_of_one_lt_of_le hk hkn]
    · rw [if_neg hkn, Nat.log_of_lt (by omega)]

/-- The index computed by `formatBytes` is the integer logarithm in base 1024. -/
theorem floorLog_eq_log (n : Nat) : floorLog 1024 n = Nat.log 1024 n :=
  floorLogAux_eq_log 1024 (by decide) n n (Nat.le_refl n)

/-- Below `1024^4` the unit is an entry of the four-entry scale: the index is
the largest `i` in 0..3 with `1024^i ≤ bytes`, and `bytes < 1024^(i+1)`. -/
theorem formatBytes_unit_in_scale (bytes : Nat) (h0 : 0 < bytes) (h : bytes < 1024 ^ 4) :
    floorLog 1024 bytes ≤ 3 ∧
    1024 ^ floorLog 1024 bytes ≤ bytes ∧
    bytes < 1024 ^ (floorLog 1024 bytes + 1) ∧
    (∀ j, 1024 ^ j ≤ bytes → j ≤ floorLog 1024 bytes) ∧
    sizes[floorLog 1024 bytes]? = some (sizesAt (floorLog 1024 bytes)) := by
  rw [floorLog_eq_log]
  have hne : bytes ≠ 0 := by omega
  have hlt : Nat.log 1024 bytes < 4 := Nat.log_lt_of_lt_pow hne h
  refine ⟨by omega, Nat.pow_log_le_self 1024 hne, Nat.lt_pow_succ_log_self (by decide) bytes,
    fun j hj => Nat.le_log_of_pow_le (by decide) hj, ?_⟩
  have hcases : Nat.log 1024 bytes = 0 ∨ Nat.log 1024 bytes = 1 ∨ Nat.log 1024 bytes = 2 ∨
      Nat.log 1024 bytes = 3 := by omega
  rcases hcases with e | e | e | e <;> rw [e] <;> rfl

theorem formatBytes_unit_in_scale_witness :
    0 < 1536 ∧ 1536 < 1024 ^ 4 ∧ floorLog 1024 1536 ≤ 3 ∧
      sizes[floorLog 1024 1536]? = some (sizesAt (floorLog 1024 1536)) :=
  ⟨by decide, by decide, (formatBytes_unit_in_scale 1536 (by decide) (by decide)).1,
    (formatBytes_unit_in_scale 1536 (by decide) (by decide)).2.2.2.2⟩

/-- C9, evaluated at 2 TiB: for `bytes = 2^41` the index is 4, `sizes[4]` is
outside the four-entry scale, and the result is "2 undefined". The same
happens at exactly `1024^4`. -/
theorem formatBytes_outside_scale :
    floorLog 1024 (2 ^ 41) = 4 ∧
    sizes[floorLog 1024 (2 ^ 41)]? = none ∧
    formatBytes (2 ^ 41) = "2 undefined" ∧
    formatBytes (1024 ^ 4) = "1 undefined" ∧
    formatBytes (1024 ^ 4 - 1) = "1024 GB" := by
  decide

theorem digitChar_spec (d : Nat) (h : d < 10) :
    (Nat.digitChar d).toNat - '0'.toNat = d ∧ (Nat.digitChar d).isDigit = true := by
  have all : ∀ x : Fin 10,
      (Nat.digitChar x).toNat - '0'.toNat = x ∧ (Nat.digitChar x).isDigit = true := by
    decide
  exact all ⟨d, h⟩

theorem digitsValue_cons (c : Char) (cs : List Char) :
    digitsValue (c :: cs) = (c.toNat - '0'.toNat) * 10 ^ cs.length + digitsValue cs := by
  have gen : ∀ (l : List Char) (a : Nat),
      l.foldl (fun acc c => 10 * acc + (c.toNat - '0'.toNat)) a =
        a * 10 ^ l.length + l.foldl (fun acc c => 10 * acc + (c.toNat - '0'.toNat)) 0 := by
    intro l
    induction l with
    | nil => intro a; simp
    | cons x xs ih =>
      intro a
      rw [List.foldl_cons, ih, List.foldl_cons, ih (10 * 0 + (x.toNat - '0'.toNat)),
        List.length_cons, pow_succ]
      ring
  unfold digitsValue
  rw [List.foldl_cons, gen]
  simp

theorem toDigitsCore_value (fuel : Nat) :
    ∀ (n : Nat) (ds : List Char), n < fuel → (∀ c ∈ ds, c.isDigit = true) →
      (∀ c ∈ Nat.toDigitsCore 10 fuel n ds, c.isDigit = true) ∧
        digitsValue (Nat.toDigitsCore 10 fuel n ds) = n * 10 ^ ds.length + digitsValue ds := by
  induction fuel with
  | zero => intro n ds h; omega
  | succ fuel ih =>
    intro n ds hn hds
    have hd := digitChar_spec (n % 10) (Nat.mod_lt _ (by decide))
    have hall : ∀ c ∈ Nat.digitChar (n % 10) :: ds, c.isDigit = true := by
      intro c hc
      rcases List.mem_cons.1 hc with rfl | hc
      · exact hd.2
      · exact hds c hc
    unfold Nat.toDigitsCore
    by_cases hz : n / 10 = 0
    · simp only [hz, if_true]
      refine ⟨hall, ?_⟩
      rw [digitsValue_cons, hd.1]
      have : n % 10 = n := by omega
      rw [this]
    · simp only [hz, if_false]
      have hrec := ih (n / 10) (Nat.digitChar (n % 10) :: ds) (by omega) hall
      refine ⟨hrec.1, ?_⟩
      rw [hrec.2, digitsValue_cons, hd.1, List.length_cons, pow_succ]
      have e : n * 10 ^ ds.length = (10 * (n / 10) + n % 10) * 10 ^ ds.length := by
        rw [Nat.div_add_mod]
      rw [e]
      ring

/-- The decimal digits printed for a natural number read back as that number. -/
theorem repr_value (n : Nat) :
    (∀ c ∈ (Nat.repr n).data, c.isDigit = true) ∧ digitsValue (Nat.repr n).data = n := by
  have h := toDigitsCore_value (n + 1) n [] (by omega) (by simp)
  simpa [Nat.repr, Nat.toDigits, List.asString, digitsValue] using h

theorem padZeros_value (len : Nat) (cs : List Char) (h : ∀ c ∈ cs, c.isDigit = true) :
    (∀ c ∈ padZeros len cs, c.isDigit = true) ∧ digitsValue (padZeros len cs) = digitsValue cs ∧
      len ≤ (padZeros len cs).length := by
  unfold padZeros
  refine ⟨?_, ?_, ?_⟩
  · intro c hc
    rcases List.mem_append.1 hc with hc | hc
    · rw [List.eq_of_mem_replicate hc]; decide
    · exact h c hc
  · induction (len - cs.length) with
    | zero => simp
    | succ k ih =>
      rw [List.replicate_succ, List.cons_append, digitsValue_cons, ih]
      simp
  · simp; omega

theorem digitsValue_append (a b : List Char) :
    digitsValue (a ++ b) = digitsValue a * 10 ^ b.length + digitsValue b := by
  induction a with
  | nil => simp [digitsValue]
  | cons x xs ih =>
    rw [List.cons_append, digitsValue_cons, ih, digitsValue_cons, List.length_append, pow_add]
    ring

theorem parseFloat_point (a b : List Char) (ha : ∀ c ∈ a, c.isDigit = true)
    (hb : ∀ c ∈ b, c.isDigit = true) (hne : b ≠ []) :
    parseFloat (String.mk (a ++ '.' :: b)) =
      some { mant := digitsValue (a ++ b), exp := b.length } := by
  have htake : (a ++ '.' :: b).takeWhile Char.isDigit = a := by
    rw [List.takeWhile_append_of_pos ha]
    simp [List.takeWhile_cons, show Char.isDigit '.' = false by decide]
  have hdrop : (a ++ '.' :: b).dropWhile Char.isDigit = '.' :: b := by
    clear htake
    induction a with
    | nil => simp [List.dropWhile_cons, show Char.isDigit '.' = false by decide]
    | cons x xs ih =>
      rw [List.cons_append, List.dropWhile_cons, if_pos (ha x (List.mem_cons_self _ _))]
      exact ih (fun c hc => ha c (List.mem_cons_of_mem _ hc))
  have hfrac : b.takeWhile Char.isDigit = b := List.takeWhile_eq_self_iff.2 hb
  unfold parseFloat
  simp only [htake, hdrop, hfrac]
  have : b.isEmpty = false := by
    cases b with
    | nil => exact absurd rfl hne
    | cons _ _ => rfl
  simp [this]

/-- Reading back the output of `toFixed(2)`: `parseFloat` gets the rounded
number of hundredths, with two fraction digits. -/
theorem parseFloat_toFixed2 (num den : Nat) :
    parseFloat (toFixed2 num den) = some { mant := roundHundredths num den, exp := 2 } := by
  have hr := repr_value (roundHundredths num den)
  have hp := padZeros_value 3 (Nat.repr (roundHundredths num den)).data hr.1
  unfold toFixed2
  simp only
  generalize padZeros 3 (Nat.repr (roundHundredths num den)).data = m at hp
  have hlen : 3 ≤ m.length := hp.2.2
  have hdroplen : (m.drop (m.length - 2)).length = 2 := by
    rw [List.length_drop]; omega
  have hne : m.drop (m.length - 2) ≠ [] := by
    intro e
    rw [e] at hdroplen
    simp at hdroplen
  rw [parseFloat_point _ _ (fun c hc => hp.1 c (List.mem_of_mem_take hc))
    (fun c hc => hp.1 c (List.mem_of_mem_drop hc)) hne, List.take_append_drop, hp.2.1, hr.2,
    hdroplen]

theorem padZeros_repr_one :
    ∀ x : Fin 10, padZeros 1 (Nat.repr x).data = [Nat.digitChar x] := by
  decide

theorem padZeros_repr_two :
    ∀ x : Fin 100, padZeros 2 (Nat.repr x).data = [Nat.digitChar (x / 10), Nat.digitChar (x % 10)] := by
  decide

/-- The string of a number of hundredths: trailing zeros are not printed. -/
theorem numberToString_hundredths (n : Nat) :
    numberToString { mant := n, exp := 2 } = trimmedDecimal n := by
  unfold numberToString trimmedDecimal
  by_cases h10 : n % 10 = 0
  · by_cases h100 : n / 10 % 10 = 0
    · have hm : n % 100 = 0 := by omega
      have hd : n / 10 / 10 = n / 100 := by omega
      simp [stripZeros, h10, h100, hm, hd]
    · have hm : ¬ n % 100 = 0 := by omega
      have hd : n / 10 / 10 = n / 100 := by omega
      have hone := padZeros_repr_one ⟨n / 10 % 10, Nat.mod_lt _ (by decide)⟩
      simp only at hone
      simp [stripZeros, h10, h100, hm, hd, hone]
  · have hm : ¬ n % 100 = 0 := by omega
    have htwo := padZeros_repr_two ⟨n % 100, Nat.mod_lt _ (by decide)⟩
    simp only at htwo
    have e1 : n % 100 / 10 = n / 10 % 10 := by omega
    have e2 : n % 100 % 10 = n % 10 := by omega
    rw [e1, e2] at htwo
    simp [stripZeros, h10, hm, htwo]

/-- C7 (counterexample). `formatBytes(1024)` is "1 KB", not "1.00 KB", and
`formatBytes(1536)` is "1.5 KB", not "1.50 KB": `toFixed(2)` yields "1.00" and
"1.50", but `parseFloat` turns them back into numbers, printed without
trailing zeros. -/
theorem formatBytes_not_two_decimals :
    toFixed2 1024 1024 = "1.00" ∧ formatBytes 1024 = "1 KB" ∧ formatBytes 1024 ≠ "1.00 KB" ∧
    toFixed2 1536 1024 = "1.50" ∧ formatBytes 1536 = "1.5 KB" ∧ formatBytes 1536 ≠ "1.50 KB" := by
  decide

/-- C7 (amended). `formatBytes(0)` is "0 Bytes"; for every positive byte count
below `1024^4` the result is the scaled value `bytes / 1024^i` rounded to the
nearest hundredth (ties upwards), printed with at most two decimals and no
trailing zero, followed by a space and the unit, an entry of the scale Bytes,
KB, MB, GB, with `1024^i ≤ bytes < 1024^(i+1)`; `formatBytes(1024)` is "1 KB"
and `formatBytes(1536)` is "1.5 KB". -/
theorem formatBytes_trims_zeros :
    formatBytes 0 = "0 Bytes" ∧ formatBytes 1024 = "1 KB" ∧ formatBytes 1536 = "1.5 KB" ∧
    ∀ bytes : Nat, 0 < bytes → bytes < 1024 ^ 4 →
      ∃ (i n : Nat) (unit : String),
        i ≤ 3 ∧ sizes[i]? = some unit ∧
        1024 ^ i ≤ bytes ∧ bytes < 1024 ^ (i + 1) ∧
        2 * 1024 ^ i * n ≤ 200 * bytes + 1024 ^ i ∧
        200 * bytes + 1024 ^ i < 2 * 1024 ^ i * (n + 1) ∧
        formatBytes bytes = trimmedDecimal n ++ " " ++ unit := by
  refine ⟨by decide, by decide, by decide, ?_⟩
  intro bytes hb hlt
  have hscale := formatBytes_unit_in_scale bytes hb hlt
  have hpos : 0 < 2 * 1024 ^ floorLog 1024 bytes := by positivity
  refine ⟨floorLog 1024 bytes, roundHundredths bytes (1024 ^ floorLog 1024 bytes),
    sizesAt (floorLog 1024 bytes), hscale.1, hscale.2.2.2.2, hscale.2.1, hscale.2.2.1,
    ?_, ?_, ?_⟩
  · unfold roundHundredths
    exact Nat.mul_div_le _ _
  · unfold roundHundredths
    exact Nat.lt_mul_div_succ _ hpos
  · unfold formatBytes
    rw [if_neg (by omega)]
    simp only [parseFloat_toFixed2, numberToString_hundredths]

theorem formatBytes_trims_zeros_witness :
    0 < 1234567 ∧ 1234567 < 1024 ^ 4 ∧
      ∃ (i n : Nat) (unit : String),
        i ≤ 3 ∧ sizes[i]? = some unit ∧
        1024 ^ i ≤ 1234567 ∧ 1234567 < 1024 ^ (i + 1) ∧
        2 * 1024 ^ i * n ≤ 200 * 1234567 + 1024 ^ i ∧
        200 * 1234567 + 1024 ^ i < 2 * 1024 ^ i * (n + 1) ∧
        formatBytes 1234567 = trimmedDecimal n ++ " " ++ unit :=
  ⟨by decide, by decide, formatBytes_trims_zeros.2.2.2 1234567 (by decide) (by decide)⟩

/-- The example of the witness, evaluated: 1234567 bytes are shown as
"1.18 MB". -/
theorem formatBytes_example :
    formatBytes 1234567 = "1.18 MB" ∧ formatBytes 500 = "500 Bytes" ∧
      formatBytes 1048575 = "1024 KB" ∧ formatBytes 1100 = "1.07 KB" := by
  decide

end ImageConvert
